import Mathlib

/-!
Shallow embedding of the segment-to-shot boundary-partitioning and
validation engine of the audiobook-animator repository
(src/split-sections/core.ts, src/gen-shots/core.ts, with the data
shapes from src/transcribe-audio/types.ts, src/split-sections types
and src/gen-shots types).

Timestamps are modelled as rationals (the TS code uses JS numbers for
seconds); segment ids and boundary ids are modelled as integers.
Thrown `Error(message)` values are modelled by a structured error type
`CoreErr` together with a message renderer `errText` that mirrors the
template literals of the source.
-/

deriving instance DecidableEq for Except

namespace AudiobookAnimator

/-- Smallest unit of transcribed audio (src/transcribe-audio/types.ts). -/
structure Segment where
  id : Int
  start : ℚ
  «end» : ℚ
  text : String
deriving Repr, DecidableEq

/-- A chapter transcript (src/transcribe-audio/types.ts). -/
structure Transcript where
  duration : ℚ
  segmentCount : Nat
  segments : List Segment
  text : String
deriving Repr, DecidableEq

/-- A materialized narrative section (split-sections types). -/
structure Section where
  title : String
  description : String
  start : ℚ
  «end» : ℚ
  duration : ℚ
  startSegment : Int
  endSegment : Int
  segmentCount : Nat
  segments : List Segment
deriving Repr, DecidableEq

/-- The persisted section collection (split-sections types). -/
structure Sections where
  duration : ℚ
  sectionCount : Nat
  sections : List Section
deriving Repr, DecidableEq

/-- A materialized camera shot (gen-shots types). The optional effect
fields are attached by a later enrichment pass and are absent here. -/
structure Shot where
  shotId : Nat
  title : String
  description : String
  text : String
  start : ℚ
  «end» : ℚ
  duration : ℚ
  startSegment : Int
  endSegment : Int
  segmentCount : Nat
  ffmpegEffects : Option String
  effectsExplanation : Option String
deriving Repr, DecidableEq

/-- A shot collection, per section or combined per chapter (gen-shots types). -/
structure Shots where
  duration : ℚ
  segmentCount : Nat
  shotCount : Nat
  shots : List Shot
deriving Repr, DecidableEq

/-- One proposed item of an external AI response: both the section
proposal schema (split-sections) and the shot proposal schema
(gen-shots) are `\x7btitle, description, startSegment, endSegment\x7d`. -/
structure ProposedItem where
  title : String
  description : String
  startSegment : Int
  endSegment : Int
deriving Repr, DecidableEq

/-- Structured form of the `Error(message)` values thrown by the core:
boundary gap, incomplete coverage, empty slice ("No segments found
for ..."), missing per-section input file, and the guard on a missing
transcript segment list. -/
inductive CoreErr where
  | gap (title : String) (expected actual : Int)
  | coverage (expected actual : Int)
  | emptySlice (title : String) (startSegment endSegment : Int)
  | missingInput (path : String)
  | noSegments
deriving Repr, DecidableEq

/-- The message carried by each thrown error, mirroring the template
literals of the source; `noun` is "section" in split-sections/core.ts
and "shot" in gen-shots/core.ts. -/
def errText (noun : String) : CoreErr → String
  | .gap title expected actual =>
      "Gap detected before " ++ noun ++ " \"" ++ title ++ "\" (expected segment "
        ++ toString expected ++ ", got " ++ toString actual ++ ")"
  | .coverage expected actual =>
      "Incomplete coverage: last " ++ noun ++ " ended at segment "
        ++ toString actual ++ ", expected " ++ toString expected
  | .emptySlice title s e =>
      "No segments found for " ++ noun ++ " \"" ++ title ++ "\" between segments "
        ++ toString s ++ " and " ++ toString e
  | .missingInput p => "Section shots file not found: " ++ p
  | .noSegments => "No segments found in transcript"

/-- The `for (const shot of shots)` loop shared (as duplicated code) by
`validateShotBoundaries` (gen-shots/core.ts lines 47-55) and
`validateSectionBoundaries` (split-sections/core.ts lines 52-59):
walk the items in the given order tracking `lastEnd`; throw a gap
error at the first item whose `startSegment` is not `lastEnd + 1`;
return the final `lastEnd` otherwise. -/
def validateBoundariesLoop : List ProposedItem → Int → Except CoreErr Int
  | [], lastEnd => .ok lastEnd
  | item :: rest, lastEnd =>
    if item.startSegment ≠ lastEnd + 1 then
      .error (.gap item.title (lastEnd + 1) item.startSegment)
    else
      validateBoundariesLoop rest item.endSegment

/-- gen-shots/core.ts `validateShotBoundaries`: `lastEnd` starts at
`startSegment - 1`; after the loop an incomplete-coverage error is
thrown unless `lastEnd = endSegment`. -/
def validateShotBoundaries (shots : List ProposedItem) (startSegment endSegment : Int) :
    Except CoreErr Unit :=
  match validateBoundariesLoop shots (startSegment - 1) with
  | .error e => .error e
  | .ok lastEndSegment =>
    if lastEndSegment ≠ endSegment then
      .error (.coverage endSegment lastEndSegment)
    else
      .ok ()

/-- split-sections/core.ts `validateSectionBoundaries`: the same walk
with `lastEnd` starting at `segments[0].id - 1` and the final check
against `segments[segments.length - 1].id`. The `[]` case models the
JS failure on indexing an empty segment array (the source's
`if (!segments)` guard only fires on a missing array). -/
def validateSectionBoundaries (sections : List ProposedItem) (segments : List Segment) :
    Except CoreErr Unit :=
  match segments with
  | [] => .error .noSegments
  | s0 :: rest =>
    validateShotBoundaries sections s0.id (((s0 :: rest).getLast (List.cons_ne_nil s0 rest)).id)

/-- Clamp one index argument of JS `Array.prototype.slice`:
negative indices count from the end (floored at 0), positive ones are
capped at the length. -/
def jsSliceIdx (len : Nat) (i : Int) : Nat :=
  if i < 0 then ((len : Int) + i).toNat else min i.toNat len

/-- JS `Array.prototype.slice(s, e)`. -/
def jsSlice {α : Type} (l : List α) (s e : Int) : List α :=
  (l.drop (jsSliceIdx l.length s)).take (jsSliceIdx l.length e - jsSliceIdx l.length s)

/-- gen-shots/core.ts `processShot` builds a Shot from the (non-empty)
covered segments: the source indexes `shotSegments[0]` and
`shotSegments[length - 1]`, so the segment list is passed here as head
and tail. `shotId` is initialized to 0 and assigned later. -/
def processShot (s0 : Segment) (rest : List Segment) (title description : String)
    (startSegment endSegment : Int) : Shot :=
  { shotId := 0
    title := title
    description := description
    text := String.intercalate " " ((s0 :: rest).map Segment.text)
    start := s0.start
    «end» := ((s0 :: rest).getLast (List.cons_ne_nil s0 rest)).«end»
    duration := ((s0 :: rest).getLast (List.cons_ne_nil s0 rest)).«end» - s0.start
    startSegment := startSegment
    endSegment := endSegment
    segmentCount := (s0 :: rest).length
    ffmpegEffects := none
    effectsExplanation := none }

/-- The slice of a section's segment array taken for one proposed shot
(gen-shots/core.ts lines 116-119). -/
def sliceFor (sect : Section) (shot : ProposedItem) : List Segment :=
  jsSlice sect.segments (shot.startSegment - sect.startSegment)
    (shot.endSegment - sect.startSegment + 1)

/-- The materialization loop of `cleanSectionShots` (gen-shots/core.ts
lines 111-136): slice the section's segments for each proposed shot,
throw the empty-slice error if the slice is empty, otherwise process
the shot and accumulate `totalDuration` and `totalSegmentCount`. -/
def materializeShots (sect : Section) : List ProposedItem → Except CoreErr (List Shot × ℚ × Nat)
  | [] => .ok ([], 0, 0)
  | shot :: rest =>
    match sliceFor sect shot with
    | [] => .error (.emptySlice shot.title shot.startSegment shot.endSegment)
    | s0 :: ss =>
      let processed := processShot s0 ss shot.title shot.description
        shot.startSegment shot.endSegment
      match materializeShots sect rest with
      | .error e => .error e
      | .ok (shotsAcc, d, c) =>
        .ok (processed :: shotsAcc, processed.duration + d, processed.segmentCount + c)

/-- `list.map((shot, index) => \x7b shot.shotId = offset + index ... \x7d)`:
renumber the shot ids consecutively from `offset`, keeping order and
all other fields. Used with offset 0 in `cleanSectionShots` and with
the running `shotIdOffset` in `combineShots`. -/
def renumberFrom (offset : Nat) : List Shot → List Shot
  | [] => []
  | s :: rest => { s with shotId := offset } :: renumberFrom (offset + 1) rest

/-- The pure core of gen-shots/core.ts `cleanSectionShots` (lines
107-148): validate the proposed shot boundaries against the section's
segment-id range, materialize every shot, and assemble the per-section
`Shots` collection with `shotId := index`. -/
def cleanSectionShots (sect : Section) (respShots : List ProposedItem) :
    Except CoreErr Shots :=
  match validateShotBoundaries respShots sect.startSegment sect.endSegment with
  | .error e => .error e
  | .ok _ =>
    match materializeShots sect respShots with
    | .error e => .error e
    | .ok (shots, totalDuration, totalSegmentCount) =>
      .ok { duration := totalDuration
            segmentCount := totalSegmentCount
            shotCount := shots.length
            shots := renumberFrom 0 shots }

/-- The segment filter of split-sections/core.ts `processSections`
(lines 20-22): keep the transcript segments whose id lies in the
proposed section's inclusive id range. -/
def sectionFilter (segments : List Segment) (parsed : ProposedItem) : List Segment :=
  segments.filter fun seg =>
    decide (parsed.startSegment ≤ seg.id) && decide (seg.id ≤ parsed.endSegment)

/-- split-sections/core.ts `processSections` (lines 19-43): materialize
each proposed section from the segments its id range selects, throwing
the "No segments found for section" error when the filter is empty. -/
def processSections : List ProposedItem → List Segment → Except CoreErr (List Section)
  | [], _ => .ok []
  | parsed :: rest, segments =>
    match sectionFilter segments parsed with
    | [] => .error (.emptySlice parsed.title parsed.startSegment parsed.endSegment)
    | s0 :: ss =>
      match processSections rest segments with
      | .error e => .error e
      | .ok sectionsAcc =>
        .ok ({ title := parsed.title
               description := parsed.description
               start := s0.start
               «end» := ((s0 :: ss).getLast (List.cons_ne_nil s0 ss)).«end»
               duration := ((s0 :: ss).getLast (List.cons_ne_nil s0 ss)).«end» - s0.start
               startSegment := parsed.startSegment
               endSegment := parsed.endSegment
               segmentCount := (s0 :: ss).length
               segments := s0 :: ss } :: sectionsAcc)

/-- The accumulation loop of gen-shots/core.ts `combineShots` (lines
167-188): concatenate the per-section shot lists renumbering
`shotId := shotIdOffset + index`, advance the offset by each list's
length, and sum the collections' `duration` and `segmentCount`. -/
def combineLoop : List Shots → Nat → List Shot × ℚ × Nat
  | [], _ => ([], 0, 0)
  | c :: rest, shotIdOffset =>
    let renumbered := renumberFrom shotIdOffset c.shots
    let tailRes := combineLoop rest (shotIdOffset + c.shots.length)
    (renumbered ++ tailRes.1, c.duration + tailRes.2.1, c.segmentCount + tailRes.2.2)

/-- The pure core of gen-shots/core.ts `combineShots` (lines 167-195):
the combined collection over the per-section collections in section
order, with `shotCount` set to the combined list's length. -/
def combineShots (collections : List Shots) : Shots :=
  { duration := (combineLoop collections 0).2.1
    segmentCount := (combineLoop collections 0).2.2
    shotCount := (combineLoop collections 0).1.length
    shots := (combineLoop collections 0).1 }

/-- split-sections/core.ts `splitSections` (lines 108-131) as a
function from the transcript and the external proposal to the stage
result plus the ordered list of files it writes: the raw response file
is written before validation (line 113), `sections.json` only after
validation and materialization both succeed (line 130). -/
def splitSections (transcript : Transcript) (respSections : List ProposedItem) :
    Except CoreErr Sections × List String :=
  match validateSectionBoundaries respSections transcript.segments with
  | .error e => (.error e, ["sections.res.json"])
  | .ok _ =>
    match processSections respSections transcript.segments with
    | .error e => (.error e, ["sections.res.json"])
    | .ok processedSections =>
      (.ok { duration := transcript.duration
             sectionCount := processedSections.length
             sections := processedSections },
       ["sections.res.json", "sections.json"])

/-- gen-shots/core.ts `cleanSectionShots` viewed as a stage with its
write trace: `sectionN.shots.json` is written (line 150) only after
validation and the whole materialization loop succeed. -/
def cleanSectionShotsStage (sect : Section) (sectionId : Nat)
    (respShots : List ProposedItem) : Except CoreErr Shots × List String :=
  match cleanSectionShots sect respShots with
  | .error e => (.error e, [])
  | .ok shotsData => (.ok shotsData, ["section" ++ toString sectionId ++ ".shots.json"])

/-- The existence checks of gen-shots/core.ts `combineShots` (lines
173-176): each per-section shots file is read in order; the first
missing file aborts the combination. A missing file is modelled as
`none`. -/
def readAllShots : List (Option Shots) → Except CoreErr (List Shots)
  | [] => .ok []
  | none :: _ => .error (.missingInput "section shots file")
  | some c :: rest =>
    match readAllShots rest with
    | .error e => .error e
    | .ok cs => .ok (c :: cs)

/-- gen-shots/core.ts `combineShots` as a stage with its write trace:
`shots.json` is written (line 198) only when every per-section input
file exists. -/
def combineShotsStage (files : List (Option Shots)) : Except CoreErr Shots × List String :=
  match readAllShots files with
  | .error e => (.error e, [])
  | .ok colls => (.ok (combineShots colls), ["shots.json"])

/-- Whether a proposed item's inclusive id range covers the id `x`. -/
def covers (item : ProposedItem) (x : Int) : Bool :=
  decide (item.startSegment ≤ x) && decide (x ≤ item.endSegment)

/-- How many items of the list cover the id `x`. -/
def coverCount (items : List ProposedItem) (x : Int) : Nat :=
  items.countP (covers · x)

/-- Erase the shot id, for order-preservation statements. -/
def stripShotId (s : Shot) : Shot := { s with shotId := 0 }

/-- Whether a result is the empty-slice ("No segments found ...") error. -/
def isEmptySliceErr {α : Type} : Except CoreErr α → Bool
  | .error (.emptySlice _ _ _) => true
  | _ => false

/-- Substring occurrence on character lists. -/
def subOccurs (sub : List Char) : List Char → Bool
  | [] => List.isPrefixOf sub []
  | c :: t => List.isPrefixOf sub (c :: t) || subOccurs sub t

/-- Whether `sub` occurs as a substring of `s`. -/
def strIncludes (s sub : String) : Bool := subOccurs sub.data s.data

/-- A concrete transcript segment with id `i` spanning seconds `[i, i+1]`. -/
def unitSeg (i : Int) : Segment := ⟨i, (i : ℚ), (i : ℚ) + 1, "w" ++ toString i⟩

/-- Ten concrete segments with ids 0..9. -/
def segs0to9 : List Segment :=
  [unitSeg 0, unitSeg 1, unitSeg 2, unitSeg 3, unitSeg 4,
   unitSeg 5, unitSeg 6, unitSeg 7, unitSeg 8, unitSeg 9]

/-- Eleven concrete segments with ids 10..20. -/
def segs10to20 : List Segment :=
  [unitSeg 10, unitSeg 11, unitSeg 12, unitSeg 13, unitSeg 14, unitSeg 15,
   unitSeg 16, unitSeg 17, unitSeg 18, unitSeg 19, unitSeg 20]

/-- A concrete section spanning segment ids 10..20. -/
def section10to20 : Section :=
  { title := "Sec", description := "", start := 10, «end» := 21, duration := 11,
    startSegment := 10, endSegment := 20, segmentCount := 11, segments := segs10to20 }

/-- A proposed item with an empty description. -/
def pItem (t : String) (s e : Int) : ProposedItem := ⟨t, "", s, e⟩

/-- A one-segment concrete shot with a given local id. -/
def mkShot (n : Nat) (t : String) : Shot :=
  { shotId := n, title := t, description := "", text := "", start := 0, «end» := 1,
    duration := 1, startSegment := 0, endSegment := 0, segmentCount := 1,
    ffmpegEffects := none, effectsExplanation := none }

/-- A concrete per-section shot collection with 3 shots, local ids 0,1,2. -/
def collA : Shots :=
  { duration := 3, segmentCount := 3, shotCount := 3,
    shots := [mkShot 0 "a0", mkShot 1 "a1", mkShot 2 "a2"] }

/-- A concrete per-section shot collection with 2 shots, local ids 0,1. -/
def collB : Shots :=
  { duration := 2, segmentCount := 2, shotCount := 2,
    shots := [mkShot 0 "b0", mkShot 1 "b1"] }

/-- A concrete one-segment section over segment id 0. -/
def sectionTiny : Section :=
  { title := "T", description := "", start := 0, «end» := 1, duration := 1,
    startSegment := 0, endSegment := 0, segmentCount := 1, segments := [unitSeg 0] }

/-- The validation loop leaves `lastEnd` no smaller when every item's
range runs forward. -/
lemma loop_ok_le (items : List ProposedItem) :
    ∀ (lastEnd L : Int), validateBoundariesLoop items lastEnd = .ok L →
    (∀ it ∈ items, it.startSegment ≤ it.endSegment) → lastEnd ≤ L := by
  induction items with
  | nil =>
    intro lastEnd L h _
    simp only [validateBoundariesLoop, Except.ok.injEq] at h
    omega
  | cons item rest ih =>
    intro lastEnd L h hmono
    simp only [validateBoundariesLoop] at h
    by_cases hs : item.startSegment = lastEnd + 1
    · rw [if_neg (not_not_intro hs)] at h
      have h1 := ih item.endSegment L h fun it hit => hmono it (List.mem_cons_of_mem _ hit)
      have h2 := hmono item (List.mem_cons_self _ _)
      omega
    · rw [if_pos hs] at h
      exact Except.noConfusion h

/-- When the validation loop succeeds and every item's range runs
forward, each id is covered exactly once inside `(lastEnd, L]` and
never outside it. -/
lemma loop_ok_coverCount (items : List ProposedItem) :
    ∀ (lastEnd L : Int), validateBoundariesLoop items lastEnd = .ok L →
    (∀ it ∈ items, it.startSegment ≤ it.endSegment) →
    ∀ x : Int, coverCount items x = if lastEnd < x ∧ x ≤ L then 1 else 0 := by
  induction items with
  | nil =>
    intro lastEnd L h _ x
    simp only [validateBoundariesLoop, Except.ok.injEq] at h
    subst h
    simp only [coverCount, List.countP_nil]
    rw [if_neg (by omega)]
  | cons item rest ih =>
    intro lastEnd L h hmono x
    simp only [validateBoundariesLoop] at h
    by_cases hs : item.startSegment = lastEnd + 1
    · rw [if_neg (not_not_intro hs)] at h
      have hrest := ih item.endSegment L h
        (fun it hit => hmono it (List.mem_cons_of_mem _ hit)) x
      have hendL : item.endSegment ≤ L :=
        loop_ok_le rest item.endSegment L h
          fun it hit => hmono it (List.mem_cons_of_mem _ hit)
      have hse : item.startSegment ≤ item.endSegment :=
        hmono item (List.mem_cons_self _ _)
      simp only [coverCount, List.countP_cons] at hrest ⊢
      rw [hrest]
      simp only [covers, Bool.and_eq_true, decide_eq_true_eq]
      split_ifs <;> omega
    · rw [if_pos hs] at h
      exact Except.noConfusion h

/-- When the validation loop succeeds, every id in `(lastEnd, L]` is
covered by at least one item, backwards ranges or not. -/
lemma loop_ok_exists_cover (items : List ProposedItem) :
    ∀ (lastEnd L : Int), validateBoundariesLoop items lastEnd = .ok L →
    ∀ x : Int, lastEnd < x → x ≤ L → ∃ it ∈ items, covers it x = true := by
  induction items with
  | nil =>
    intro lastEnd L h x h1 h2
    simp only [validateBoundariesLoop, Except.ok.injEq] at h
    omega
  | cons item rest ih =>
    intro lastEnd L h x h1 h2
    simp only [validateBoundariesLoop] at h
    by_cases hs : item.startSegment = lastEnd + 1
    · rw [if_neg (not_not_intro hs)] at h
      by_cases hx : x ≤ item.endSegment
      · refine ⟨item, List.mem_cons_self _ _, ?_⟩
        simp only [covers, Bool.and_eq_true, decide_eq_true_eq]
        omega
      · obtain ⟨it, hit, hc⟩ := ih item.endSegment L h x (by omega) h2
        exact ⟨it, List.mem_cons_of_mem _ hit, hc⟩
    · rw [if_pos hs] at h
      exact Except.noConfusion h

/-- If the first `i` items pass the walk leaving `lastEnd = L` and item
`i` does not start at `L + 1`, the loop stops at item `i` with exactly
that gap error. -/
lemma loop_gap_at_first_mismatch :
    ∀ (i : Nat) (items : List ProposedItem) (lastEnd L : Int) (h : i < items.length),
    validateBoundariesLoop (items.take i) lastEnd = .ok L →
    (items.get ⟨i, h⟩).startSegment ≠ L + 1 →
    validateBoundariesLoop items lastEnd =
      .error (.gap (items.get ⟨i, h⟩).title (L + 1) ((items.get ⟨i, h⟩).startSegment)) := by
  intro i
  induction i with
  | zero =>
    intro items lastEnd L h hpre hne
    cases items with
    | nil => simp at h
    | cons item rest =>
      simp only [List.take_zero, validateBoundariesLoop, Except.ok.injEq] at hpre
      subst hpre
      have hget : (item :: rest).get ⟨0, h⟩ = item := rfl
      rw [hget] at hne ⊢
      simp only [validateBoundariesLoop]
      rw [if_pos hne]
  | succ i ih =>
    intro items lastEnd L h hpre hne
    cases items with
    | nil => simp at h
    | cons item rest =>
      have h' : i < rest.length := by simpa using h
      have hget : (item :: rest).get ⟨i + 1, h⟩ = rest.get ⟨i, h'⟩ := rfl
      rw [hget] at hne ⊢
      simp only [List.take_succ_cons, validateBoundariesLoop] at hpre
      by_cases hs : item.startSegment = lastEnd + 1
      · rw [if_neg (not_not_intro hs)] at hpre
        have hrec := ih rest item.endSegment L h' hpre hne
        simp only [validateBoundariesLoop]
        rw [if_neg (not_not_intro hs)]
        exact hrec
      · rw [if_pos hs] at hpre
        exact Except.noConfusion hpre

/-- An empty proposal over range `[first, last]` with `first ≤ last`
fails the final coverage check with `lastEnd = first - 1`. -/
lemma validate_nil_coverage (first last : Int) (h : first ≤ last) :
    validateShotBoundaries [] first last = .error (.coverage last (first - 1)) := by
  simp only [validateShotBoundaries, validateBoundariesLoop]
  rw [if_pos (by omega)]

/-- A successful `validateShotBoundaries` run means the walk over the
whole list succeeded and ended exactly at `last`. -/
lemma validate_ok_loop (items : List ProposedItem) (first last : Int)
    (hok : validateShotBoundaries items first last = .ok ()) :
    validateBoundariesLoop items (first - 1) = .ok last := by
  unfold validateShotBoundaries at hok
  split at hok
  · exact Except.noConfusion hok
  · rename_i L heq
    by_cases hL : L = last
    · rw [hL] at heq; exact heq
    · rw [if_pos hL] at hok; exact Except.noConfusion hok

/-- C1 (amended): when boundary validation succeeds and every item's
range runs forward (`startSegment ≤ endSegment`), the items'
`[startSegment, endSegment]` ranges tile `[first, last]` exactly:
every id inside the range is covered by exactly one item and every id
outside it by none. Without the forward-range condition, every id in
the range is still covered by at least one item (no missing ids), but
a backwards range can make an id covered twice. -/
theorem c1_exact_tiling (items : List ProposedItem) (first last : Int)
    (hok : validateShotBoundaries items first last = .ok ()) :
    ((∀ it ∈ items, it.startSegment ≤ it.endSegment) →
      ∀ x : Int, coverCount items x = if first ≤ x ∧ x ≤ last then 1 else 0) ∧
    (∀ x : Int, first ≤ x → x ≤ last → ∃ it ∈ items, covers it x = true) := by
  have hloop := validate_ok_loop items first last hok
  constructor
  · intro hmono x
    rw [loop_ok_coverCount items (first - 1) last hloop hmono x]
    exact if_congr (by omega) rfl rfl
  · intro x h1 h2
    exact loop_ok_exists_cover items (first - 1) last hloop x (by omega) h2

/-- C1 counterexample: boundary validation accepts this proposal over
ids 0..9 (its middle item has a backwards range), yet id 4 is covered
by two items, so the ranges do not tile the range exactly. -/
theorem c1_counterexample :
    validateShotBoundaries [pItem "A" 0 4, pItem "B" 5 2, pItem "C" 3 9] 0 9 = .ok () ∧
    coverCount [pItem "A" 0 4, pItem "B" 5 2, pItem "C" 3 9] 4 = 2 := by
  decide

/-- C1 witness: the amended theorem evaluated on a concrete
forward-range proposal over ids 0..9 at id 7. -/
theorem c1_witness :
    validateShotBoundaries [pItem "A" 0 4, pItem "B" 5 9] 0 9 = .ok () ∧
    coverCount [pItem "A" 0 4, pItem "B" 5 9] 7 = if (0:Int) ≤ 7 ∧ (7:Int) ≤ 9 then 1 else 0 := by
  refine ⟨by decide, ?_⟩
  exact (c1_exact_tiling [pItem "A" 0 4, pItem "B" 5 9] 0 9 (by decide)).1 (by decide) 7

/-- C2: boundary validation walks the items in order with `lastEnd`
initialized to `first - 1`; it raises the gap error at the first item
whose `startSegment` differs from `lastEnd + 1`, reporting expected
`lastEnd + 1` and the actual `startSegment` (over ids 0..9 the
proposal [(0,4),(6,9)] fails citing expected 5, got 6); and when every
item passes but the final `lastEnd` differs from `last`, it raises the
coverage error reporting expected `last` and actual `lastEnd`. -/
theorem c2_gap_and_coverage_reporting :
    (∀ (items : List ProposedItem) (first last : Int) (i : Nat) (h : i < items.length) (L : Int),
      validateBoundariesLoop (items.take i) (first - 1) = .ok L →
      (items.get ⟨i, h⟩).startSegment ≠ L + 1 →
      validateShotBoundaries items first last =
        .error (.gap (items.get ⟨i, h⟩).title (L + 1) ((items.get ⟨i, h⟩).startSegment))) ∧
    (∀ (items : List ProposedItem) (first last L : Int),
      validateBoundariesLoop items (first - 1) = .ok L → L ≠ last →
      validateShotBoundaries items first last = .error (.coverage last L)) ∧
    validateShotBoundaries [pItem "A" 0 4, pItem "B" 6 9] 0 9 = .error (.gap "B" 5 6) := by
  refine ⟨?_, ?_, by decide⟩
  · intro items first last i h L hpre hne
    have hrec := loop_gap_at_first_mismatch i items (first - 1) L h hpre hne
    unfold validateShotBoundaries
    rw [hrec]
  · intro items first last L hloop hne
    unfold validateShotBoundaries
    rw [hloop]
    exact if_pos hne

/-- C2 witness: the gap branch evaluated at the spec's example (gap at
the second item, expected 5, got 6) and the coverage branch at a
proposal stopping at id 8 instead of 9. -/
theorem c2_witness :
    validateShotBoundaries [pItem "A" 0 4, pItem "B" 6 9] 0 9 = .error (.gap "B" 5 6) ∧
    validateShotBoundaries [pItem "A" 0 4, pItem "B" 5 8] 0 9 = .error (.coverage 9 8) := by
  constructor
  · have h := c2_gap_and_coverage_reporting.1 [pItem "A" 0 4, pItem "B" 6 9] 0 9 1
      (by decide) 4 (by decide) (by decide)
    exact h.trans (by decide)
  · exact c2_gap_and_coverage_reporting.2.1 [pItem "A" 0 4, pItem "B" 5 8] 0 9 8
      (by decide) (by decide)

/-- C9: over a non-empty expected range (`first ≤ last`) the empty
proposal always fails with the incomplete-coverage error, `lastEnd`
staying at `first - 1`; both for the shot validator over an explicit
range and for the section validator over a non-empty segment list. -/
theorem c9_empty_proposal_rejected :
    (∀ first last : Int, first ≤ last →
      validateShotBoundaries [] first last = .error (.coverage last (first - 1))) ∧
    (∀ (s0 : Segment) (rest : List Segment),
      s0.id ≤ (((s0 :: rest).getLast (List.cons_ne_nil s0 rest)).id) →
      validateSectionBoundaries [] (s0 :: rest) =
        .error (.coverage (((s0 :: rest).getLast (List.cons_ne_nil s0 rest)).id) (s0.id - 1))) := by
  constructor
  · exact validate_nil_coverage
  · intro s0 rest h
    simp only [validateSectionBoundaries]
    exact validate_nil_coverage _ _ h

/-- C9 witness: the empty proposal over ids 0..9 and over a two-segment
transcript with ids 0 and 1. -/
theorem c9_witness :
    validateShotBoundaries [] 0 9 = .error (.coverage 9 (-1)) ∧
    validateSectionBoundaries [] [unitSeg 0, unitSeg 1] = .error (.coverage 1 (-1)) := by
  constructor
  · exact (c9_empty_proposal_rejected.1 0 9 (by decide)).trans (by decide)
  · exact (c9_empty_proposal_rejected.2 (unitSeg 0) [unitSeg 1] (by decide)).trans (by decide)

/-- Renumbering keeps the list length. -/
lemma renumberFrom_length (l : List Shot) : ∀ offset : Nat,
    (renumberFrom offset l).length = l.length := by
  induction l with
  | nil => intro offset; rfl
  | cons s rest ih => intro offset; simp [renumberFrom, ih]

/-- The `i`-th renumbered shot is the `i`-th original shot with
`shotId := offset + i`. -/
lemma renumberFrom_get (l : List Shot) : ∀ (offset i : Nat)
    (h : i < (renumberFrom offset l).length) (h' : i < l.length),
    (renumberFrom offset l).get ⟨i, h⟩ = { l.get ⟨i, h'⟩ with shotId := offset + i } := by
  induction l with
  | nil => intro offset i h h'; simp at h'
  | cons s rest ih =>
    intro offset i h h'
    cases i with
    | zero => simp [renumberFrom]
    | succ i =>
      have h2 : i < (renumberFrom (offset + 1) rest).length := by
        rw [renumberFrom_length]; simpa using h'
      have h3 : i < rest.length := by simpa using h'
      show (renumberFrom (offset + 1) rest).get ⟨i, h2⟩ = _
      rw [ih (offset + 1) i h2 h3]
      have hg : (s :: rest).get ⟨i + 1, h'⟩ = rest.get ⟨i, h3⟩ := rfl
      rw [hg]
      have harith : offset + 1 + i = offset + (i + 1) := by omega
      rw [harith]

/-- Renumbering only changes the shot ids. -/
lemma renumberFrom_map_strip (l : List Shot) : ∀ offset : Nat,
    (renumberFrom offset l).map stripShotId = l.map stripShotId := by
  induction l with
  | nil => intro offset; rfl
  | cons s rest ih =>
    intro offset
    simp only [renumberFrom, List.map_cons, ih]
    rfl

/-- Renumbering keeps each shot's duration. -/
lemma renumberFrom_map_duration (l : List Shot) : ∀ offset : Nat,
    (renumberFrom offset l).map Shot.duration = l.map Shot.duration := by
  induction l with
  | nil => intro offset; rfl
  | cons s rest ih =>
    intro offset
    simp only [renumberFrom, List.map_cons, ih]

/-- Renumbering keeps each shot's segment count. -/
lemma renumberFrom_map_segmentCount (l : List Shot) : ∀ offset : Nat,
    (renumberFrom offset l).map Shot.segmentCount = l.map Shot.segmentCount := by
  induction l with
  | nil => intro offset; rfl
  | cons s rest ih =>
    intro offset
    simp only [renumberFrom, List.map_cons, ih]

/-- The combined shot list has as many shots as all inputs together. -/
lemma combineLoop_length (colls : List Shots) : ∀ offset : Nat,
    (combineLoop colls offset).1.length = (colls.map fun c => c.shots.length).sum := by
  induction colls with
  | nil => intro offset; rfl
  | cons c rest ih =>
    intro offset
    simp [combineLoop, renumberFrom_length, ih]

/-- The `i`-th combined shot carries id `offset + i`. -/
lemma combineLoop_shotId (colls : List Shots) : ∀ (offset i : Nat)
    (h : i < (combineLoop colls offset).1.length),
    ((combineLoop colls offset).1.get ⟨i, h⟩).shotId = offset + i := by
  induction colls with
  | nil => intro offset i h; simp [combineLoop] at h
  | cons c rest ih =>
    intro offset i h
    have hlist : (combineLoop (c :: rest) offset).1 =
        renumberFrom offset c.shots ++ (combineLoop rest (offset + c.shots.length)).1 := rfl
    by_cases hi : i < c.shots.length
    · have hi' : i < (renumberFrom offset c.shots).length := by
        rw [renumberFrom_length]; exact hi
      have hget := renumberFrom_get c.shots offset i hi' hi
      simp only [hlist, List.get_eq_getElem] at h ⊢
      rw [List.getElem_append_left hi']
      simp only [List.get_eq_getElem] at hget
      rw [hget]
    · have hle : (renumberFrom offset c.shots).length ≤ i := by
        rw [renumberFrom_length]; omega
      have h2 : i - (renumberFrom offset c.shots).length <
          (combineLoop rest (offset + c.shots.length)).1.length := by
        have hlen := h
        rw [hlist, List.length_append] at hlen
        rw [renumberFrom_length] at *
        omega
      have hrec := ih (offset + c.shots.length) (i - (renumberFrom offset c.shots).length) h2
      simp only [hlist, List.get_eq_getElem] at h hrec ⊢
      rw [List.getElem_append_right hle, hrec]
      rw [renumberFrom_length]
      omega

/-- Up to shot ids, the combined list is the concatenation of the
input lists in order. -/
lemma combineLoop_strip (colls : List Shots) : ∀ offset : Nat,
    (combineLoop colls offset).1.map stripShotId =
      ((colls.map Shots.shots).flatten).map stripShotId := by
  induction colls with
  | nil => intro offset; rfl
  | cons c rest ih =>
    intro offset
    simp [combineLoop, List.map_append, renumberFrom_map_strip, ih]

/-- The combined duration is the sum of the inputs' durations. -/
lemma combineLoop_duration (colls : List Shots) : ∀ offset : Nat,
    (combineLoop colls offset).2.1 = (colls.map Shots.duration).sum := by
  induction colls with
  | nil => intro offset; rfl
  | cons c rest ih =>
    intro offset
    simp [combineLoop, ih]

/-- The combined segment count is the sum of the inputs' counts. -/
lemma combineLoop_segmentCount (colls : List Shots) : ∀ offset : Nat,
    (combineLoop colls offset).2.2 = (colls.map Shots.segmentCount).sum := by
  induction colls with
  | nil => intro offset; rfl
  | cons c rest ih =>
    intro offset
    simp [combineLoop, ih]

/-- The durations of the combined shots are the concatenated input
durations. -/
lemma combineLoop_map_duration (colls : List Shots) : ∀ offset : Nat,
    (combineLoop colls offset).1.map Shot.duration =
      ((colls.map fun c => c.shots.map Shot.duration)).flatten := by
  induction colls with
  | nil => intro offset; rfl
  | cons c rest ih =>
    intro offset
    simp [combineLoop, List.map_append, renumberFrom_map_duration, ih]

/-- The segment counts of the combined shots are the concatenated
input counts. -/
lemma combineLoop_map_segmentCount (colls : List Shots) : ∀ offset : Nat,
    (combineLoop colls offset).1.map Shot.segmentCount =
      ((colls.map fun c => c.shots.map Shot.segmentCount)).flatten := by
  induction colls with
  | nil => intro offset; rfl
  | cons c rest ih =>
    intro offset
    simp [combineLoop, List.map_append, renumberFrom_map_segmentCount, ih]

/-- C4: aggregation renumbers shot ids to `0..shotCount-1` in order,
`shotCount` is the total number of input shots, and apart from the
ids the combined list is exactly the input shot lists concatenated in
section order. -/
theorem c4_renumbering (colls : List Shots) :
    (combineShots colls).shotCount = (colls.map fun c => c.shots.length).sum ∧
    (∀ (i : Nat) (h : i < (combineShots colls).shots.length),
      ((combineShots colls).shots.get ⟨i, h⟩).shotId = i) ∧
    (combineShots colls).shots.map stripShotId =
      ((colls.map Shots.shots).flatten).map stripShotId := by
  refine ⟨combineLoop_length colls 0, ?_, combineLoop_strip colls 0⟩
  intro i h
  have hrec := combineLoop_shotId colls 0 i h
  simpa using hrec

/-- C4 witness: per-section shot sets of sizes 3 and 2 combine to ids
0,1,2,3,4 with `shotCount` 5 (sampled at index 3). -/
theorem c4_witness :
    (combineShots [collA, collB]).shotCount = 5 ∧
    ((combineShots [collA, collB]).shots.get ⟨3, by decide⟩).shotId = 3 ∧
    (combineShots [collA, collB]).shots.map stripShotId =
      (([collA, collB].map Shots.shots).flatten).map stripShotId := by
  refine ⟨?_, ?_, (c4_renumbering [collA, collB]).2.2⟩
  · exact ((c4_renumbering [collA, collB]).1).trans (by decide)
  · exact (c4_renumbering [collA, collB]).2.1 3 (by decide)

/-- The accumulated totals of the materialization loop are exactly the
sums over the produced shots. -/
lemma materializeShots_sums (sect : Section) : ∀ (resp : List ProposedItem)
    (shots : List Shot) (d : ℚ) (c : Nat),
    materializeShots sect resp = .ok (shots, d, c) →
    d = (shots.map Shot.duration).sum ∧ c = (shots.map Shot.segmentCount).sum := by
  intro resp
  induction resp with
  | nil =>
    intro shots d c h
    simp only [materializeShots, Except.ok.injEq, Prod.mk.injEq] at h
    obtain ⟨h1, h2, h3⟩ := h
    subst h1; subst h2; subst h3
    simp
  | cons shot rest ih =>
    intro shots d c h
    simp only [materializeShots] at h
    cases hs : sliceFor sect shot with
    | nil => rw [hs] at h; exact Except.noConfusion h
    | cons s0 ss =>
      rw [hs] at h
      cases hm : materializeShots sect rest with
      | error e => rw [hm] at h; exact Except.noConfusion h
      | ok trip =>
        obtain ⟨shots', d', c'⟩ := trip
        rw [hm] at h
        simp only [Except.ok.injEq, Prod.mk.injEq] at h
        obtain ⟨h1, h2, h3⟩ := h
        subst h1; subst h2; subst h3
        have hrec := ih shots' d' c' hm
        simp [List.map_cons, List.sum_cons, hrec.1, hrec.2]

/-- Summing per-collection durations equals summing over the
concatenated shots when each collection satisfies the sum invariant. -/
lemma sum_duration_flatten (colls : List Shots)
    (hinv : ∀ c ∈ colls, c.duration = (c.shots.map Shot.duration).sum) :
    (colls.map Shots.duration).sum =
      (((colls.map fun c => c.shots.map Shot.duration)).flatten).sum := by
  induction colls with
  | nil => rfl
  | cons c rest ih =>
    simp only [List.map_cons, List.flatten_cons, List.sum_cons, List.sum_append]
    rw [hinv c (List.mem_cons_self _ _),
      ih fun x hx => hinv x (List.mem_cons_of_mem _ hx)]

/-- The segment-count analogue of `sum_duration_flatten`. -/
lemma sum_segmentCount_flatten (colls : List Shots)
    (hinv : ∀ c ∈ colls, c.segmentCount = (c.shots.map Shot.segmentCount).sum) :
    (colls.map Shots.segmentCount).sum =
      (((colls.map fun c => c.shots.map Shot.segmentCount)).flatten).sum := by
  induction colls with
  | nil => rfl
  | cons c rest ih =>
    simp only [List.map_cons, List.flatten_cons, List.sum_cons, List.sum_append]
    rw [hinv c (List.mem_cons_self _ _),
      ih fun x hx => hinv x (List.mem_cons_of_mem _ hx)]

/-- C5: every per-section collection produced by `cleanSectionShots`
has `duration` and `segmentCount` equal to the sums over its member
shots, and the combined collection keeps both invariants whenever its
per-section inputs satisfy them (as the pipeline's inputs, produced by
`cleanSectionShots`, do). Durations are exact rational sums here; the
JS floats carry the same identity up to rounding. -/
theorem c5_sum_invariants :
    (∀ (sect : Section) (resp : List ProposedItem) (out : Shots),
      cleanSectionShots sect resp = .ok out →
      out.duration = (out.shots.map Shot.duration).sum ∧
      out.segmentCount = (out.shots.map Shot.segmentCount).sum) ∧
    (∀ colls : List Shots,
      (∀ c ∈ colls, c.duration = (c.shots.map Shot.duration).sum ∧
        c.segmentCount = (c.shots.map Shot.segmentCount).sum) →
      (combineShots colls).duration = ((combineShots colls).shots.map Shot.duration).sum ∧
      (combineShots colls).segmentCount =
        ((combineShots colls).shots.map Shot.segmentCount).sum) := by
  constructor
  · intro sect resp out h
    unfold cleanSectionShots at h
    split at h
    · exact Except.noConfusion h
    · split at h
      · exact Except.noConfusion h
      · rename_i shots d c hm
        simp only [Except.ok.injEq] at h
        subst h
        have hsums := materializeShots_sums sect resp shots d c hm
        constructor
        · show d = ((renumberFrom 0 shots).map Shot.duration).sum
          rw [renumberFrom_map_duration]
          exact hsums.1
        · show c = ((renumberFrom 0 shots).map Shot.segmentCount).sum
          rw [renumberFrom_map_segmentCount]
          exact hsums.2
  · intro colls hinv
    constructor
    · show (combineLoop colls 0).2.1 = ((combineLoop colls 0).1.map Shot.duration).sum
      rw [combineLoop_duration, combineLoop_map_duration]
      exact sum_duration_flatten colls fun c hc => (hinv c hc).1
    · show (combineLoop colls 0).2.2 = ((combineLoop colls 0).1.map Shot.segmentCount).sum
      rw [combineLoop_segmentCount, combineLoop_map_segmentCount]
      exact sum_segmentCount_flatten colls fun c hc => (hinv c hc).2

/-- The collection `cleanSectionShots` produces for `sectionTiny` and
the one-shot proposal covering it. -/
def c5out : Shots :=
  { duration := 1, segmentCount := 1, shotCount := 1,
    shots := [{ shotId := 0, title := "S", description := "", text := "w0",
                start := 0, «end» := 1, duration := 1, startSegment := 0, endSegment := 0,
                segmentCount := 1, ffmpegEffects := none, effectsExplanation := none }] }

/-- C5 witness: the per-section invariant evaluated on a concrete
one-shot section run, and the combined invariant on the concrete
collections of sizes 3 and 2. -/
theorem c5_witness :
    cleanSectionShots sectionTiny [pItem "S" 0 0] = .ok c5out ∧
    c5out.duration = (c5out.shots.map Shot.duration).sum ∧
    (combineShots [collA, collB]).duration =
      ((combineShots [collA, collB]).shots.map Shot.duration).sum ∧
    (combineShots [collA, collB]).segmentCount =
      ((combineShots [collA, collB]).shots.map Shot.segmentCount).sum := by
  have hclean : cleanSectionShots sectionTiny [pItem "S" 0 0] = .ok c5out := by
    simp [cleanSectionShots, validateShotBoundaries, validateBoundariesLoop, materializeShots,
      sliceFor, jsSlice, jsSliceIdx, processShot, renumberFrom, sectionTiny, unitSeg, pItem,
      c5out, Shots.mk.injEq, Shot.mk.injEq]
    decide
  have hinv : ∀ c ∈ [collA, collB],
      c.duration = (List.map Shot.duration c.shots).sum ∧
      c.segmentCount = (List.map Shot.segmentCount c.shots).sum := by
    intro c hc
    simp only [List.mem_cons, List.not_mem_nil, or_false] at hc
    rcases hc with rfl | rfl <;> norm_num [collA, collB, mkShot]
  refine ⟨hclean, ?_, ?_, ?_⟩
  · exact (c5_sum_invariants.1 sectionTiny [pItem "S" 0 0] c5out hclean).1
  · exact (c5_sum_invariants.2 [collA, collB] hinv).1
  · exact (c5_sum_invariants.2 [collA, collB] hinv).2

/-- Each shot the materialization loop outputs is `processShot` of the
(non-empty) slice taken for the corresponding proposed shot. -/
lemma materializeShots_get (sect : Section) : ∀ (resp : List ProposedItem)
    (shots : List Shot) (d : ℚ) (c : Nat),
    materializeShots sect resp = .ok (shots, d, c) →
    shots.length = resp.length ∧
    ∀ (i : Nat) (hi : i < shots.length) (hr : i < resp.length),
      ∃ (s0 : Segment) (ss : List Segment),
        sliceFor sect (resp.get ⟨i, hr⟩) = s0 :: ss ∧
        shots.get ⟨i, hi⟩ = processShot s0 ss (resp.get ⟨i, hr⟩).title
          (resp.get ⟨i, hr⟩).description (resp.get ⟨i, hr⟩).startSegment
          (resp.get ⟨i, hr⟩).endSegment := by
  intro resp
  induction resp with
  | nil =>
    intro shots d c h
    simp only [materializeShots, Except.ok.injEq, Prod.mk.injEq] at h
    obtain ⟨h1, _, _⟩ := h
    subst h1
    exact ⟨rfl, fun i hi hr => absurd hr (by simp)⟩
  | cons shot rest ih =>
    intro shots d c h
    simp only [materializeShots] at h
    cases hs : sliceFor sect shot with
    | nil => rw [hs] at h; exact Except.noConfusion h
    | cons s0 ss =>
      rw [hs] at h
      cases hm : materializeShots sect rest with
      | error e => rw [hm] at h; exact Except.noConfusion h
      | ok trip =>
        obtain ⟨shots', d', c'⟩ := trip
        rw [hm] at h
        simp only [Except.ok.injEq, Prod.mk.injEq] at h
        obtain ⟨h1, _, _⟩ := h
        subst h1
        obtain ⟨hlen, hpt⟩ := ih shots' d' c' hm
        refine ⟨by simp [hlen], ?_⟩
        intro i hi hr
        cases i with
        | zero => exact ⟨s0, ss, hs, rfl⟩
        | succ i =>
          have hi' : i < shots'.length := by simpa using hi
          have hr' : i < rest.length := by simpa using hr
          exact hpt i hi' hr'

/-- Each section `processSections` outputs is materialized from the
(non-empty) filtered segment run of the corresponding proposed
section. -/
lemma processSections_get : ∀ (resp : List ProposedItem) (segments : List Segment)
    (out : List Section), processSections resp segments = .ok out →
    out.length = resp.length ∧
    ∀ (i : Nat) (hi : i < out.length) (hr : i < resp.length),
      ∃ (s0 : Segment) (ss : List Segment),
        sectionFilter segments (resp.get ⟨i, hr⟩) = s0 :: ss ∧
        out.get ⟨i, hi⟩ =
          { title := (resp.get ⟨i, hr⟩).title
            description := (resp.get ⟨i, hr⟩).description
            start := s0.start
            «end» := ((s0 :: ss).getLast (List.cons_ne_nil s0 ss)).«end»
            duration := ((s0 :: ss).getLast (List.cons_ne_nil s0 ss)).«end» - s0.start
            startSegment := (resp.get ⟨i, hr⟩).startSegment
            endSegment := (resp.get ⟨i, hr⟩).endSegment
            segmentCount := (s0 :: ss).length
            segments := s0 :: ss } := by
  intro resp
  induction resp with
  | nil =>
    intro segments out h
    simp only [processSections, Except.ok.injEq] at h
    subst h
    exact ⟨rfl, fun i hi hr => absurd hr (by simp)⟩
  | cons parsed rest ih =>
    intro segments out h
    simp only [processSections] at h
    cases hs : sectionFilter segments parsed with
    | nil => rw [hs] at h; exact Except.noConfusion h
    | cons s0 ss =>
      rw [hs] at h
      cases hm : processSections rest segments with
      | error e => rw [hm] at h; exact Except.noConfusion h
      | ok sectionsAcc =>
        rw [hm] at h
        simp only [Except.ok.injEq] at h
        subst h
        obtain ⟨hlen, hpt⟩ := ih segments sectionsAcc hm
        refine ⟨by simp [hlen], ?_⟩
        intro i hi hr
        cases i with
        | zero => exact ⟨s0, ss, hs, rfl⟩
        | succ i =>
          have hi' : i < sectionsAcc.length := by simpa using hi
          have hr' : i < rest.length := by simpa using hr
          exact hpt i hi' hr'

/-- C6: every materialized shot and section derives its timing from
the covered segments only: `start` is the first covered segment's
start, `end` the last covered segment's end, `duration` their
difference, `segmentCount` the number of covered segments, and (for
shots) `text` the single-space join of the covered segments' texts. -/
theorem c6_timing_from_segments :
    (∀ (sect : Section) (resp : List ProposedItem) (out : Shots),
      cleanSectionShots sect resp = .ok out →
      ∀ (i : Nat) (hi : i < out.shots.length) (hr : i < resp.length),
      some (out.shots.get ⟨i, hi⟩).start =
        ((sliceFor sect (resp.get ⟨i, hr⟩)).head?).map Segment.start ∧
      some (out.shots.get ⟨i, hi⟩).«end» =
        ((sliceFor sect (resp.get ⟨i, hr⟩)).getLast?).map Segment.«end» ∧
      (out.shots.get ⟨i, hi⟩).duration =
        (out.shots.get ⟨i, hi⟩).«end» - (out.shots.get ⟨i, hi⟩).start ∧
      (out.shots.get ⟨i, hi⟩).segmentCount = (sliceFor sect (resp.get ⟨i, hr⟩)).length ∧
      (out.shots.get ⟨i, hi⟩).text =
        String.intercalate " " ((sliceFor sect (resp.get ⟨i, hr⟩)).map Segment.text)) ∧
    (∀ (resp : List ProposedItem) (segments : List Segment) (out : List Section),
      processSections resp segments = .ok out →
      ∀ (i : Nat) (hi : i < out.length) (hr : i < resp.length),
      some (out.get ⟨i, hi⟩).start =
        ((sectionFilter segments (resp.get ⟨i, hr⟩)).head?).map Segment.start ∧
      some (out.get ⟨i, hi⟩).«end» =
        ((sectionFilter segments (resp.get ⟨i, hr⟩)).getLast?).map Segment.«end» ∧
      (out.get ⟨i, hi⟩).duration =
        (out.get ⟨i, hi⟩).«end» - (out.get ⟨i, hi⟩).start ∧
      (out.get ⟨i, hi⟩).segmentCount = (sectionFilter segments (resp.get ⟨i, hr⟩)).length ∧
      (out.get ⟨i, hi⟩).segments = sectionFilter segments (resp.get ⟨i, hr⟩)) := by
  constructor
  · intro sect resp out hok i hi hr
    unfold cleanSectionShots at hok
    split at hok
    · exact Except.noConfusion hok
    · split at hok
      · exact Except.noConfusion hok
      · rename_i shots d c hm
        simp only [Except.ok.injEq] at hok
        subst hok
        obtain ⟨hlen, hpt⟩ := materializeShots_get sect resp shots d c hm
        have hi0 : i < shots.length := by
          have hh := hi
          simp only [renumberFrom_length] at hh
          exact hh
        obtain ⟨s0, ss, hslice, hget⟩ := hpt i hi0 hr
        have hi1 : i < (renumberFrom 0 shots).length := by
          rw [renumberFrom_length]; exact hi0
        have hfield : (renumberFrom 0 shots).get ⟨i, hi1⟩ =
            { processShot s0 ss (resp.get ⟨i, hr⟩).title (resp.get ⟨i, hr⟩).description
                (resp.get ⟨i, hr⟩).startSegment (resp.get ⟨i, hr⟩).endSegment
              with shotId := 0 + i } := by
          rw [renumberFrom_get shots 0 i hi1 hi0, hget]
        simp only [List.get_eq_getElem] at hfield hslice
        refine ⟨?_, ?_, ?_, ?_, ?_⟩ <;>
          simp [List.get_eq_getElem, hfield, hslice, processShot,
            List.getLast?_eq_getLast (s0 :: ss) (List.cons_ne_nil s0 ss)]
  · intro resp segments out hok i hi hr
    obtain ⟨hlen, hpt⟩ := processSections_get resp segments out hok
    obtain ⟨s0, ss, hfilter, hget⟩ := hpt i hi hr
    simp only [List.get_eq_getElem] at hget hfilter
    refine ⟨?_, ?_, ?_, ?_, ?_⟩ <;>
      simp [List.get_eq_getElem, hget, hfilter,
        List.getLast?_eq_getLast (s0 :: ss) (List.cons_ne_nil s0 ss)]

/-- The section `processSections` materializes for the one-section
proposal over a one-segment transcript. -/
def c6secOut : Section :=
  { title := "A", description := "", start := 0, «end» := 1, duration := 1,
    startSegment := 0, endSegment := 0, segmentCount := 1, segments := [unitSeg 0] }

/-- C6 witness: the shot conclusion sampled at the start field of a
concrete one-shot run, and the section conclusion sampled at the end
field of a concrete one-section run. -/
theorem c6_witness :
    cleanSectionShots sectionTiny [pItem "S" 0 0] = .ok c5out ∧
    some ((c5out.shots.get ⟨0, by decide⟩).start) =
      ((sliceFor sectionTiny (([pItem "S" 0 0] : List ProposedItem).get ⟨0, by decide⟩)).head?).map
        Segment.start ∧
    processSections [pItem "A" 0 0] [unitSeg 0] = .ok [c6secOut] ∧
    some ((([c6secOut] : List Section).get ⟨0, by decide⟩).«end») =
      ((sectionFilter [unitSeg 0]
        (([pItem "A" 0 0] : List ProposedItem).get ⟨0, by decide⟩)).getLast?).map Segment.«end» := by
  have hok1 : cleanSectionShots sectionTiny [pItem "S" 0 0] = .ok c5out := by
    simp [cleanSectionShots, validateShotBoundaries, validateBoundariesLoop, materializeShots,
      sliceFor, jsSlice, jsSliceIdx, processShot, renumberFrom, sectionTiny, unitSeg, pItem,
      c5out, Shots.mk.injEq, Shot.mk.injEq]
    decide
  have hok2 : processSections [pItem "A" 0 0] [unitSeg 0] = .ok [c6secOut] := by
    simp [processSections, sectionFilter, unitSeg, pItem, c6secOut, Section.mk.injEq]
  refine ⟨hok1, ?_, hok2, ?_⟩
  · exact (c6_timing_from_segments.1 sectionTiny [pItem "S" 0 0] c5out hok1 0
      (by decide) (by decide)).1
  · exact ((c6_timing_from_segments.2 [pItem "A" 0 0] [unitSeg 0] [c6secOut] hok2 0
      (by decide) (by decide)).2.1)

/-- Whether a propagated error is the empty-slice one does not depend
on the value type of the computation it aborted. -/
lemma isEmptySliceErr_error (α β : Type) (e : CoreErr) :
    isEmptySliceErr (.error e : Except CoreErr α) =
      isEmptySliceErr (.error e : Except CoreErr β) := by
  cases e <;> rfl

/-- If some proposed shot's slice is empty, the materialization loop
fails with an empty-slice error (at that shot or an earlier one). -/
lemma materialize_member_empty (sect : Section) : ∀ (resp : List ProposedItem),
    (∃ p ∈ resp, sliceFor sect p = []) →
    isEmptySliceErr (materializeShots sect resp) = true := by
  intro resp
  induction resp with
  | nil =>
    intro h
    obtain ⟨p, hp, _⟩ := h
    simp at hp
  | cons shot rest ih =>
    intro h
    by_cases hs : sliceFor sect shot = []
    · simp only [materializeShots]
      rw [hs]
      rfl
    · obtain ⟨p, hp, hpe⟩ := h
      have hpr : p ∈ rest := by
        rcases List.mem_cons.mp hp with h1 | h1
        · exact absurd (h1 ▸ hpe) hs
        · exact h1
      have hrec := ih ⟨p, hpr, hpe⟩
      simp only [materializeShots]
      cases hsl : sliceFor sect shot with
      | nil => exact absurd hsl hs
      | cons s0 ss =>
        cases hm : materializeShots sect rest with
        | error e =>
          rw [hm] at hrec
          exact hrec
        | ok trip =>
          rw [hm] at hrec
          simp [isEmptySliceErr] at hrec

/-- C3 (amended): against the concrete section spanning ids 10..20, a
shot proposal that passes boundary validation and contains the
out-of-range shot `(25, 26)` fails materialization with the
empty-slice "No segments found" error. -/
theorem c3_out_of_range_shot (resp : List ProposedItem)
    (hval : validateShotBoundaries resp 10 20 = .ok ())
    (hmem : ∃ p ∈ resp, p.startSegment = 25 ∧ p.endSegment = 26) :
    isEmptySliceErr (cleanSectionShots section10to20 resp) = true := by
  obtain ⟨p, hp, h25, h26⟩ := hmem
  have hempty : sliceFor section10to20 p = [] := by
    unfold sliceFor
    rw [h25, h26]
    decide
  have hrec := materialize_member_empty section10to20 resp ⟨p, hp, hempty⟩
  unfold cleanSectionShots
  rw [show section10to20.startSegment = 10 from rfl,
    show section10to20.endSegment = 20 from rfl, hval]
  cases hm : materializeShots section10to20 resp with
  | error e =>
    rw [hm] at hrec
    show isEmptySliceErr (Except.error e : Except CoreErr Shots) = true
    rw [isEmptySliceErr_error Shots (List Shot × ℚ × Nat) e]
    exact hrec
  | ok trip =>
    rw [hm] at hrec
    simp [isEmptySliceErr] at hrec

/-- C3 counterexample: processing the proposal consisting of the shot
`(25, 26)` alone against the section spanning 10..20 raises the
boundary-gap error (expected 10, got 25), not an empty-slice error —
validation runs before the empty-slice check. -/
theorem c3_counterexample :
    cleanSectionShots section10to20 [pItem "Wide" 25 26] = .error (.gap "Wide" 10 25) ∧
    isEmptySliceErr (cleanSectionShots section10to20 [pItem "Wide" 25 26]) = false := by
  decide

/-- C3 witness: a validated proposal over the section 10..20 containing
the shot `(25, 26)`; processing fails with exactly the empty-slice
error at that shot. -/
theorem c3_witness :
    validateShotBoundaries [pItem "P1" 10 24, pItem "P2" 25 26, pItem "P3" 27 20] 10 20 = .ok () ∧
    isEmptySliceErr (cleanSectionShots section10to20
      [pItem "P1" 10 24, pItem "P2" 25 26, pItem "P3" 27 20]) = true := by
  refine ⟨by decide, ?_⟩
  exact c3_out_of_range_shot [pItem "P1" 10 24, pItem "P2" 25 26, pItem "P3" 27 20]
    (by decide) ⟨pItem "P2" 25 26, by decide, rfl, rfl⟩

/-- If some proposed section's id range matches no segment, section
materialization fails with the "No segments found for section" error
(at that section or an earlier one). -/
lemma processSections_member_empty : ∀ (resp : List ProposedItem) (segments : List Segment),
    (∃ p ∈ resp, sectionFilter segments p = []) →
    isEmptySliceErr (processSections resp segments) = true := by
  intro resp
  induction resp with
  | nil =>
    intro segments h
    obtain ⟨p, hp, _⟩ := h
    simp at hp
  | cons parsed rest ih =>
    intro segments h
    by_cases hs : sectionFilter segments parsed = []
    · simp only [processSections]
      rw [hs]
      rfl
    · obtain ⟨p, hp, hpe⟩ := h
      have hpr : p ∈ rest := by
        rcases List.mem_cons.mp hp with h1 | h1
        · exact absurd (h1 ▸ hpe) hs
        · exact h1
      have hrec := ih segments ⟨p, hpr, hpe⟩
      simp only [processSections]
      cases hsl : sectionFilter segments parsed with
      | nil => exact absurd hsl hs
      | cons s0 ss =>
        cases hm : processSections rest segments with
        | error e =>
          rw [hm] at hrec
          exact hrec
        | ok sectionsAcc =>
          rw [hm] at hrec
          simp [isEmptySliceErr] at hrec

/-- C10: section materialization has its own empty-range defense: when
a proposed section's id range matches no transcript segment, the whole
section set is rejected with the fatal "No segments found for section"
error. -/
theorem c10_section_empty_range (resp : List ProposedItem) (segments : List Segment)
    (hmem : ∃ p ∈ resp, sectionFilter segments p = []) :
    isEmptySliceErr (processSections resp segments) = true :=
  processSections_member_empty resp segments hmem

/-- C10 witness: over segments 0..9 a contiguity-valid proposal whose
middle section has `endSegment < startSegment` (range 10..7, matching
no segment) is rejected by materialization. -/
theorem c10_witness :
    validateSectionBoundaries [pItem "A" 0 9, pItem "B" 10 7, pItem "C" 8 9] segs0to9 = .ok () ∧
    isEmptySliceErr (processSections [pItem "A" 0 9, pItem "B" 10 7, pItem "C" 8 9]
      segs0to9) = true := by
  refine ⟨by decide, ?_⟩
  exact c10_section_empty_range [pItem "A" 0 9, pItem "B" 10 7, pItem "C" 8 9] segs0to9
    ⟨pItem "B" 10 7, by decide, by decide⟩

/-- C7: when a stage fails, its output file is not among the files it
wrote: a failed `splitSections` run never writes `sections.json` (it
may already have written the raw-response debug file), a failed
`cleanSectionShots` run writes nothing, and a failed `combineShots`
run writes nothing — so re-running the stage is a clean retry. -/
theorem c7_no_write_on_error :
    (∀ (t : Transcript) (resp : List ProposedItem) (e : CoreErr),
      (splitSections t resp).1 = .error e → "sections.json" ∉ (splitSections t resp).2) ∧
    (∀ (sect : Section) (n : Nat) (resp : List ProposedItem) (e : CoreErr),
      (cleanSectionShotsStage sect n resp).1 = .error e →
      (cleanSectionShotsStage sect n resp).2 = []) ∧
    (∀ (files : List (Option Shots)) (e : CoreErr),
      (combineShotsStage files).1 = .error e → (combineShotsStage files).2 = []) := by
  refine ⟨?_, ?_, ?_⟩
  · intro t resp e h
    unfold splitSections at h ⊢
    cases hv : validateSectionBoundaries resp t.segments with
    | error e1 =>
      show "sections.json" ∉ ["sections.res.json"]
      decide
    | ok u =>
      rw [hv] at h
      cases hp : processSections resp t.segments with
      | error e2 =>
        show "sections.json" ∉ ["sections.res.json"]
        decide
      | ok secs =>
        rw [hp] at h
        exact absurd h (by simp)
  · intro sect n resp e h
    unfold cleanSectionShotsStage at h ⊢
    cases hc : cleanSectionShots sect resp with
    | error e1 => rfl
    | ok s =>
      rw [hc] at h
      exact absurd h (by simp)
  · intro files e h
    unfold combineShotsStage at h ⊢
    cases hr : readAllShots files with
    | error e1 => rfl
    | ok colls =>
      rw [hr] at h
      exact absurd h (by simp)

/-- C7 witness: a failing split run (empty proposal), a failing clean
run (empty proposal) and a failing combine run (one missing input
file), each leaving the corresponding output file unwritten. -/
theorem c7_witness :
    (splitSections ⟨10, 2, [unitSeg 0, unitSeg 1], "t"⟩ []).1 = .error (.coverage 1 (-1)) ∧
    "sections.json" ∉ (splitSections ⟨10, 2, [unitSeg 0, unitSeg 1], "t"⟩ []).2 ∧
    (cleanSectionShotsStage sectionTiny 0 []).1 = .error (.coverage 0 (-1)) ∧
    (cleanSectionShotsStage sectionTiny 0 []).2 = [] ∧
    (combineShotsStage [none]).1 = .error (.missingInput "section shots file") ∧
    (combineShotsStage [none]).2 = [] := by
  refine ⟨by decide, ?_, by decide, ?_, by decide, ?_⟩
  · exact c7_no_write_on_error.1 ⟨10, 2, [unitSeg 0, unitSeg 1], "t"⟩ []
      (.coverage 1 (-1)) (by decide)
  · exact c7_no_write_on_error.2.1 sectionTiny 0 [] (.coverage 0 (-1)) (by decide)
  · exact c7_no_write_on_error.2.2 [none] (.missingInput "section shots file") (by decide)

/-- A list is a Boolean prefix of itself followed by anything. -/
lemma isPrefixOf_append_self (l t : List Char) : List.isPrefixOf l (l ++ t) = true := by
  induction l with
  | nil => simp
  | cons c cs ih => simp [List.isPrefixOf, ih]

/-- A Boolean prefix stays a prefix when the larger list is extended. -/
lemma isPrefixOf_extend : ∀ (sub hay ext : List Char),
    List.isPrefixOf sub hay = true → List.isPrefixOf sub (hay ++ ext) = true := by
  intro sub
  induction sub with
  | nil => intro hay ext _; simp
  | cons a as ih =>
    intro hay ext h
    cases hay with
    | nil => simp [List.isPrefixOf] at h
    | cons b bs =>
      simp only [List.isPrefixOf, Bool.and_eq_true] at h
      simp [List.cons_append, List.isPrefixOf, h.1, ih bs ext h.2]

/-- A Boolean prefix occurs as a substring. -/
lemma subOccurs_here (sub hay : List Char) (h : List.isPrefixOf sub hay = true) :
    subOccurs sub hay = true := by
  cases hay with
  | nil => simpa [subOccurs] using h
  | cons c t => simp [subOccurs, h]

/-- An occurrence survives prepending one character. -/
lemma subOccurs_cons (sub : List Char) (c : Char) (t : List Char)
    (h : subOccurs sub t = true) : subOccurs sub (c :: t) = true := by
  simp [subOccurs, h]

/-- An occurrence survives prepending any list. -/
lemma subOccurs_append_left (sub pre rest : List Char) (h : subOccurs sub rest = true) :
    subOccurs sub (pre ++ rest) = true := by
  induction pre with
  | nil => simpa using h
  | cons c cs ih => simpa [List.cons_append] using subOccurs_cons sub c (cs ++ rest) ih

/-- An occurrence survives appending any list. -/
lemma subOccurs_append_right (sub : List Char) : ∀ (hay ext : List Char),
    subOccurs sub hay = true → subOccurs sub (hay ++ ext) = true := by
  intro hay
  induction hay with
  | nil =>
    intro ext h
    simp only [subOccurs] at h
    exact subOccurs_here sub ext (isPrefixOf_extend sub [] ext h)
  | cons c t ih =>
    intro ext h
    simp only [subOccurs, Bool.or_eq_true] at h
    rcases h with h | h
    · exact subOccurs_here sub ((c :: t) ++ ext) (isPrefixOf_extend sub (c :: t) ext h)
    · exact subOccurs_cons sub c (t ++ ext) (ih ext h)

/-- A string includes a substring that a right part of it includes. -/
lemma strIncludes_append_r (a b t : String) (h : strIncludes b t = true) :
    strIncludes (a ++ b) t = true := by
  unfold strIncludes at *
  rw [String.data_append]
  exact subOccurs_append_left t.data a.data b.data h

/-- A string includes a substring that a left part of it includes. -/
lemma strIncludes_append_l (a b t : String) (h : strIncludes a t = true) :
    strIncludes (a ++ b) t = true := by
  unfold strIncludes at *
  rw [String.data_append]
  exact subOccurs_append_right t.data a.data b.data h

/-- A string includes its own final piece. -/
lemma strIncludes_tail (x t : String) : strIncludes (x ++ t) t = true := by
  apply strIncludes_append_r
  unfold strIncludes
  have h := isPrefixOf_append_self t.data []
  rw [List.append_nil] at h
  exact subOccurs_here t.data t.data h

/-- C8 (amended): gap errors and empty-slice errors carry messages
including the offending item's title and both numeric boundary values
(expected/actual for gaps, the declared start/end ids for empty
slices); the coverage error's message includes the numeric expected
and actual ids but not the offending item's title. -/
theorem c8_error_messages :
    (∀ (noun title : String) (expected actual : Int),
      strIncludes (errText noun (.gap title expected actual)) title = true ∧
      strIncludes (errText noun (.gap title expected actual)) (toString expected) = true ∧
      strIncludes (errText noun (.gap title expected actual)) (toString actual) = true) ∧
    (∀ (noun title : String) (s e : Int),
      strIncludes (errText noun (.emptySlice title s e)) title = true ∧
      strIncludes (errText noun (.emptySlice title s e)) (toString s) = true ∧
      strIncludes (errText noun (.emptySlice title s e)) (toString e) = true) ∧
    (∀ (noun : String) (expected actual : Int),
      strIncludes (errText noun (.coverage expected actual)) (toString expected) = true ∧
      strIncludes (errText noun (.coverage expected actual)) (toString actual) = true) := by
  refine ⟨?_, ?_, ?_⟩
  · intro noun title expected actual
    simp only [errText]
    refine ⟨?_, ?_, ?_⟩
    · apply strIncludes_append_l
      apply strIncludes_append_l
      apply strIncludes_append_l
      apply strIncludes_append_l
      apply strIncludes_append_l
      exact strIncludes_tail _ _
    · apply strIncludes_append_l
      apply strIncludes_append_l
      apply strIncludes_append_l
      exact strIncludes_tail _ _
    · apply strIncludes_append_l
      exact strIncludes_tail _ _
  · intro noun title s e
    simp only [errText]
    refine ⟨?_, ?_, ?_⟩
    · apply strIncludes_append_l
      apply strIncludes_append_l
      apply strIncludes_append_l
      apply strIncludes_append_l
      exact strIncludes_tail _ _
    · apply strIncludes_append_l
      apply strIncludes_append_l
      exact strIncludes_tail _ _
    · exact strIncludes_tail _ _
  · intro noun expected actual
    simp only [errText]
    refine ⟨?_, ?_⟩
    · exact strIncludes_tail _ _
    · apply strIncludes_append_l
      apply strIncludes_append_l
      exact strIncludes_tail _ _

/-- C8 counterexample: a proposal whose single section "Alpha" stops
at id 8 over segments 0..9 raises the coverage error; its message
contains the numeric expected and actual ids but not the title of the
offending section, so not every core error message carries the
offending item's title. -/
theorem c8_counterexample :
    validateSectionBoundaries [pItem "Alpha" 0 8] segs0to9 = .error (.coverage 9 8) ∧
    strIncludes (errText "section" (.coverage 9 8)) "9" = true ∧
    strIncludes (errText "section" (.coverage 9 8)) "8" = true ∧
    strIncludes (errText "section" (.coverage 9 8)) "Alpha" = false := by
  refine ⟨by decide, by decide, by decide, by decide⟩

end AudiobookAnimator
